import Mathlib

/-!
Shallow embedding of `src/main.py` (class `WebCrawler`): a recursive web
crawler with a visited set, a URL-to-text index, and case-insensitive
keyword search.

The two external adapters (`requests.get` plus BeautifulSoup extraction,
and `urllib.parse.urljoin`) are modelled as an explicit environment `Env`.
The stdout reporting sink and the sequence of URLs handed to the fetch
adapter are modelled as explicit fields of the crawler state, so that
the observable behaviour of one crawl session is a pure function of the
environment and the seed.  Python's unbounded recursion is modelled with
a fuel parameter; running out of fuel leaves the state unchanged, and
termination of the real recursion is expressed as fuel-indifference
above a bound.
-/

/-- A fetched page, as the adapter layer delivers it to the engine:
the extracted plain text (`soup.get_text()`) and the raw `href` values of
all anchors (`soup.find_all('a')`, in document order).  An anchor whose
`href` attribute is missing is modelled as the empty string, which the
engine skips exactly as Python's `if href:` does. -/
structure Page where
  text : String
  links : List String
deriving Repr, DecidableEq

/-- The external adapters: `fetch` models `requests.get` followed by
parsing (`Except.error e` models any exception with message `e`), and
`urljoin` models `urllib.parse.urljoin`. -/
structure Env where
  fetch : String → Except String Page
  urljoin : String → String → String

/-- Python's `b or u` for an optional string `b`: `None` and the empty
string are falsy, so they yield `u`. -/
def pyOr (b : Option String) (u : String) : String :=
  match b with
  | none => u
  | some s => if s = "" then u else s

/-- Model of Python's `str.lower()`: lowercase each character. -/
def pyLower (s : String) : String :=
  String.mk (s.data.map Char.toLower)

/-- Substring test on character lists: does `pat` occur contiguously in
`s`?  This is the meaning of Python's `pat in s` on strings. -/
def substrB (pat : List Char) : List Char → Bool
  | [] => pat.isEmpty
  | c :: rest => pat.isPrefixOf (c :: rest) || substrB pat rest

/-- Model of Python's `sub in s` on strings. -/
def pyIn (sub s : String) : Bool :=
  substrB sub.data s.data

/-- Model of Python's `s.startswith(pre)`. -/
def startswith (s pre : String) : Bool :=
  pre.data.isPrefixOf s.data

/-- Python `dict` assignment `m[k] = v` on an insertion-ordered
association list: overwrite in place when the key exists, append
otherwise. -/
def dictInsert (m : List (String × String)) (k v : String) :
    List (String × String) :=
  if m.any (fun p => p.1 == k) then
    m.map (fun p => if p.1 == k then (k, v) else p)
  else
    m ++ [(k, v)]

/-- The crawler state.  `index` and `visited` are the two fields of the
Python class (`index` keeps dict insertion order); `fetchLog` records, in
order, every URL passed to the fetch adapter, and `output` records the
lines printed to the reporting sink. -/
structure WebCrawler where
  index : List (String × String)
  visited : List String
  fetchLog : List String
  output : List String
deriving Repr, DecidableEq

namespace WebCrawler

/-- `__init__`: empty index, empty visited set (and empty observation
traces). -/
def empty : WebCrawler :=
  { index := [], visited := [], fetchLog := [], output := [] }

/-- `WebCrawler.crawl(url, base_url)`.  If `url` was already visited,
return at once.  Otherwise record the URL as visited, hand it to the
fetch adapter, and on success store the page text in the index and fold
over the extracted links: each non-empty `href` is resolved with
`urljoin(base_url or url, href)` and recursively crawled iff the
resolved URL starts with the string `base_url or url`.  On fetch failure
print `Error crawling <url>: <e>` and touch nothing else.  `fuel` bounds
the recursion depth of the embedding. -/
def crawl (env : Env) : Nat → String → Option String → WebCrawler → WebCrawler
  | 0, _, _, c => c
  | fuel + 1, url, base, c =>
    if url ∈ c.visited then c
    else
      let c1 : WebCrawler :=
        { c with visited := url :: c.visited, fetchLog := c.fetchLog ++ [url] }
      match env.fetch url with
      | Except.ok page =>
        let c2 : WebCrawler := { c1 with index := dictInsert c1.index url page.text }
        page.links.foldl
          (fun acc href =>
            if href = "" then acc
            else
              if startswith (env.urljoin (pyOr base url) href) (pyOr base url) then
                crawl env fuel (env.urljoin (pyOr base url) href)
                  (some (pyOr base url)) acc
              else acc)
          c2
      | Except.error e =>
        { c1 with output := c1.output ++ ["Error crawling " ++ url ++ ": " ++ e] }

/-- The link-expansion loop of `crawl`, as a standalone function: the
`for link in soup.find_all('a')` body folded over the extracted links,
with the effective scope string already computed. -/
def crawlLinks (env : Env) (fuel : Nat) (scope : String)
    (links : List String) (c : WebCrawler) : WebCrawler :=
  links.foldl
    (fun acc href =>
      if href = "" then acc
      else
        if startswith (env.urljoin scope href) scope then
          crawl env fuel (env.urljoin scope href) (some scope) acc
        else acc)
    c

/-- `WebCrawler.search(keyword)`: collect, in index iteration order, the
URLs whose stored text contains the keyword case-insensitively. -/
def search (c : WebCrawler) (keyword : String) : List String :=
  c.index.foldl
    (fun results p =>
      if pyIn (pyLower keyword) (pyLower p.2) then results ++ [p.1]
      else results)
    []

/-- `WebCrawler.search` as a method call on the object state: the body
of the Python method reads `self.index` and assigns to no attribute, so
the post-state is the pre-state and the return value is `search`. -/
def searchOp (c : WebCrawler) (keyword : String) : WebCrawler × List String :=
  (c, search c keyword)

/-- `WebCrawler.print_results(results)`: the lines written to stdout. -/
def print_results (results : List String) : List String :=
  if results ≠ [] then
    "Search results:" :: results.map (fun r => "- " ++ r)
  else
    ["No results found."]

end WebCrawler

/-- The links the adapter extracts from `u`'s page, or `[]` when the
fetch of `u` fails. -/
def linksOf (env : Env) (u : String) : List String :=
  match env.fetch u with
  | Except.ok p => p.links
  | Except.error _ => []

-- Sanity checks of the embedding on concrete runs.

namespace WebCrawler

/-- The invariant of one crawl session started from a fresh engine: the
fetch adapter was called on pairwise distinct URLs, the visited set holds
exactly the URLs handed to the fetch adapter, the index holds exactly the
attempted URLs whose fetch succeeded (with their extracted text), and the
index keys are pairwise distinct. -/
def Inv (env : Env) (c : WebCrawler) : Prop :=
  c.fetchLog.Nodup ∧
  (∀ u, u ∈ c.visited ↔ u ∈ c.fetchLog) ∧
  (∀ u t, (u, t) ∈ c.index ↔
    ∃ p, env.fetch u = Except.ok p ∧ t = p.text ∧ u ∈ c.fetchLog) ∧
  (c.index.map Prod.fst).Nodup

/-- Keys of the index are always visited URLs (the implicit invariant of
claim C9). -/
def KeysSub (c : WebCrawler) : Prop :=
  ∀ u t, (u, t) ∈ c.index → u ∈ c.visited

end WebCrawler

/-- How many URLs of the finite universe `U` are not yet visited; the
termination measure of one crawl session over `U`. -/
def unvisitedCount (U : List String) (c : WebCrawler) : Nat :=
  (U.filter (fun u => decide (u ∉ c.visited))).length

/-- A one-page site whose only link is an off-site URL that nevertheless
has the scope string as a literal prefix: the scope leak of claim C2. -/
def evilEnv : Env :=
  { fetch := fun u =>
      if u = "https://example.com" then
        Except.ok { text := "seed", links := ["https://example.com.evil.com"] }
      else Except.error "no route",
    urljoin := fun _ h => h }

/-- A two-page site: `A` and `B` link to each other (a cycle), both
inside the scope of the seed `A`. -/
def cycEnv : Env :=
  { fetch := fun u =>
      if u = "https://s.org/a" then
        Except.ok { text := "page a", links := ["https://s.org/a/b"] }
      else if u = "https://s.org/a/b" then
        Except.ok { text := "page b", links := ["https://s.org/a"] }
      else Except.error "no route",
    urljoin := fun _ h => h }

example :
    (WebCrawler.crawl cycEnv 5 "https://s.org/a" none WebCrawler.empty).fetchLog =
      ["https://s.org/a", "https://s.org/a/b"] := by decide

example :
    (WebCrawler.crawl cycEnv 5 "https://s.org/a" none WebCrawler.empty).index =
      [("https://s.org/a", "page a"), ("https://s.org/a/b", "page b")] := by decide

namespace WebCrawler

theorem crawl_zero (env : Env) (url : String) (base : Option String)
    (c : WebCrawler) : crawl env 0 url base c = c := rfl

/-- One unfolding of `crawl` at positive fuel, with the link loop
expressed through `crawlLinks`. -/
theorem crawl_succ (env : Env) (fuel : Nat) (url : String)
    (base : Option String) (c : WebCrawler) :
    crawl env (fuel + 1) url base c =
      if url ∈ c.visited then c
      else
        match env.fetch url with
        | Except.ok page =>
            crawlLinks env fuel (pyOr base url) page.links
              { c with visited := url :: c.visited,
                       fetchLog := c.fetchLog ++ [url],
                       index := dictInsert c.index url page.text }
        | Except.error e =>
            { c with visited := url :: c.visited,
                     fetchLog := c.fetchLog ++ [url],
                     output := c.output ++ ["Error crawling " ++ url ++ ": " ++ e] } := by
  rw [crawl]
  rfl

theorem crawlLinks_nil (env : Env) (fuel : Nat) (scope : String)
    (c : WebCrawler) : crawlLinks env fuel scope [] c = c := rfl

theorem crawlLinks_cons (env : Env) (fuel : Nat) (scope : String)
    (href : String) (rest : List String) (c : WebCrawler) :
    crawlLinks env fuel scope (href :: rest) c =
      crawlLinks env fuel scope rest
        (if href = "" then c
         else
           if startswith (env.urljoin scope href) scope then
             crawl env fuel (env.urljoin scope href) (some scope) c
           else c) := rfl

end WebCrawler

theorem substrB_nil_left (s : List Char) : substrB [] s = true := by
  induction s with
  | nil => rfl
  | cons c rest ih => simp [substrB, List.isPrefixOf]

theorem substrB_eq_true_iff (pat s : List Char) :
    substrB pat s = true ↔ pat <:+: s := by
  induction s with
  | nil =>
    simp only [substrB, List.isEmpty_iff]
    constructor
    · intro h
      simp [h]
    · intro h
      simpa using List.eq_nil_of_infix_nil h
  | cons c rest ih =>
    simp only [substrB, Bool.or_eq_true, ih, List.infix_cons_iff]
    rw [ List.isPrefixOf_iff_prefix]

theorem dictInsert_of_fresh (m : List (String × String)) (k v : String)
    (h : ∀ p ∈ m, p.1 ≠ k) : dictInsert m k v = m ++ [(k, v)] := by
  unfold dictInsert
  rw [if_neg]
  simp only [List.any_eq_true, beq_iff_eq]
  rintro ⟨p, hp, hk⟩
  exact h p hp hk

namespace WebCrawler

theorem inv_empty (env : Env) : Inv env WebCrawler.empty := by
  refine ⟨List.nodup_nil, ?_, ?_, List.nodup_nil⟩
  · intro u; simp [WebCrawler.empty]
  · intro u t; simp [WebCrawler.empty]

theorem inv_step_error (env : Env) (c : WebCrawler) (url e : String)
    (hInv : Inv env c) (hv : url ∉ c.visited)
    (hf : env.fetch url = Except.error e) :
    Inv env
      { c with visited := url :: c.visited,
               fetchLog := c.fetchLog ++ [url],
               output := c.output ++ ["Error crawling " ++ url ++ ": " ++ e] } := by
  have hnf : url ∉ c.fetchLog := fun h => hv ((hInv.2.1 url).mpr h)
  refine ⟨?_, ?_, ?_, hInv.2.2.2⟩
  · simp [List.nodup_append, hInv.1, hnf]
  · intro u
    simp only [List.mem_cons, List.mem_append, List.mem_singleton, hInv.2.1 u]
    tauto
  · intro u t
    rw [hInv.2.2.1 u t]
    constructor
    · rintro ⟨p, hp, ht, hm⟩
      exact ⟨p, hp, ht, List.mem_append_left _ hm⟩
    · rintro ⟨p, hp, ht, hm⟩
      rcases List.mem_append.mp hm with hm | hm
      · exact ⟨p, hp, ht, hm⟩
      · rw [List.mem_singleton.mp hm] at hp
        rw [hf] at hp
        exact absurd hp (by simp)

theorem inv_step_ok (env : Env) (c : WebCrawler) (url : String) (page : Page)
    (hInv : Inv env c) (hv : url ∉ c.visited)
    (hf : env.fetch url = Except.ok page) :
    Inv env
      { c with visited := url :: c.visited,
               fetchLog := c.fetchLog ++ [url],
               index := dictInsert c.index url page.text } := by
  have hnf : url ∉ c.fetchLog := fun h => hv ((hInv.2.1 url).mpr h)
  have hfresh : ∀ p ∈ c.index, p.1 ≠ url := by
    rintro ⟨u, t⟩ hp rfl
    obtain ⟨p, hfp, ht, hm⟩ := (hInv.2.2.1 u t).mp hp
    exact hnf hm
  have hins : dictInsert c.index url page.text = c.index ++ [(url, page.text)] :=
    dictInsert_of_fresh c.index url page.text hfresh
  have hkey : url ∉ c.index.map Prod.fst := by
    simp only [List.mem_map]
    rintro ⟨p, hp, hk⟩
    exact hfresh p hp hk
  refine ⟨?_, ?_, ?_, ?_⟩
  · simp [List.nodup_append, hInv.1, hnf]
  · intro u
    simp only [List.mem_cons, List.mem_append, List.mem_singleton, hInv.2.1 u]
    tauto
  · intro u t
    simp only [hins, List.mem_append, List.mem_singleton, Prod.mk.injEq,
      hInv.2.2.1 u t]
    constructor
    · rintro (⟨p, hp, ht, hm⟩ | ⟨rfl, rfl⟩)
      · exact ⟨p, hp, ht, Or.inl hm⟩
      · exact ⟨page, hf, rfl, Or.inr rfl⟩
    · rintro ⟨p, hp, ht, hm | rfl⟩
      · exact Or.inl ⟨p, hp, ht, hm⟩
      · rw [hf] at hp
        cases hp
        exact Or.inr ⟨rfl, ht⟩
  · rw [hins]
    simp [List.nodup_append, hInv.2.2.2, hkey]

theorem crawlLinks_inv (env : Env) (fuel : Nat) (scope : String)
    (hcrawl : ∀ url base c, Inv env c → Inv env (crawl env fuel url base c)) :
    ∀ links c, Inv env c → Inv env (crawlLinks env fuel scope links c) := by
  intro links
  induction links with
  | nil => intro c h; simpa [crawlLinks_nil] using h
  | cons href rest ih =>
    intro c h
    rw [crawlLinks_cons]
    apply ih
    by_cases he : href = ""
    · simpa [he] using h
    · rw [if_neg he]
      by_cases hs : startswith (env.urljoin scope href) scope
      · rw [if_pos hs]
        exact hcrawl _ _ _ h
      · simpa [hs] using h

theorem crawl_inv (env : Env) :
    ∀ fuel url base c, Inv env c → Inv env (crawl env fuel url base c) := by
  intro fuel
  induction fuel with
  | zero => intro url base c h; simpa [crawl_zero] using h
  | succ fuel ih =>
    intro url base c h
    rw [crawl_succ]
    by_cases hv : url ∈ c.visited
    · simpa [hv] using h
    · rw [if_neg hv]
      cases hf : env.fetch url with
      | ok page =>
        exact crawlLinks_inv env fuel _ ih _ _ (inv_step_ok env c url page h hv hf)
      | error e =>
        exact inv_step_error env c url e h hv hf

theorem crawlLinks_visited_mono (env : Env) (fuel : Nat) (scope : String)
    (hcrawl : ∀ url base c x, x ∈ c.visited →
      x ∈ (crawl env fuel url base c).visited) :
    ∀ links c x, x ∈ c.visited → x ∈ (crawlLinks env fuel scope links c).visited := by
  intro links
  induction links with
  | nil => intro c x h; simpa [crawlLinks_nil] using h
  | cons href rest ih =>
    intro c x h
    rw [crawlLinks_cons]
    apply ih
    by_cases he : href = ""
    · simpa [he] using h
    · rw [if_neg he]
      by_cases hs : startswith (env.urljoin scope href) scope
      · rw [if_pos hs]
        exact hcrawl _ _ _ _ h
      · simpa [hs] using h

theorem crawl_visited_mono (env : Env) :
    ∀ fuel url base c x, x ∈ c.visited → x ∈ (crawl env fuel url base c).visited := by
  intro fuel
  induction fuel with
  | zero => intro url base c x h; simpa [crawl_zero] using h
  | succ fuel ih =>
    intro url base c x h
    rw [crawl_succ]
    by_cases hv : url ∈ c.visited
    · simpa [hv] using h
    · rw [if_neg hv]
      cases hf : env.fetch url with
      | ok page =>
        exact crawlLinks_visited_mono env fuel _ ih _ _ _ (List.mem_cons_of_mem _ h)
      | error e =>
        exact List.mem_cons_of_mem _ h

theorem search_foldl_aux (k : String) :
    ∀ (l : List (String × String)) (acc : List String),
      l.foldl
        (fun results p =>
          if pyIn (pyLower k) (pyLower p.2) then results ++ [p.1] else results)
        acc =
      acc ++ (l.filter (fun p => pyIn (pyLower k) (pyLower p.2))).map Prod.fst := by
  intro l
  induction l with
  | nil => intro acc; simp
  | cons p rest ih =>
    intro acc
    rw [List.foldl_cons]
    by_cases hp : pyIn (pyLower k) (pyLower p.2)
    · rw [ih]
      simp [hp]
    · rw [ih]
      simp [hp]

/-- `search` collects, in index order, the first components of the index
entries whose text matches the keyword case-insensitively. -/
theorem search_eq (c : WebCrawler) (k : String) :
    search c k =
      (c.index.filter (fun p => pyIn (pyLower k) (pyLower p.2))).map Prod.fst := by
  unfold search
  rw [search_foldl_aux]
  simp

theorem mem_search (c : WebCrawler) (k u : String) :
    u ∈ search c k ↔
      ∃ t, (u, t) ∈ c.index ∧
        (pyLower k).data <:+: (pyLower t).data := by
  rw [search_eq]
  simp only [List.mem_map, List.mem_filter]
  constructor
  · rintro ⟨⟨v, t⟩, ⟨hm, hmatch⟩, rfl⟩
    refine ⟨t, hm, ?_⟩
    exact (substrB_eq_true_iff _ _).mp hmatch
  · rintro ⟨t, hm, hsub⟩
    exact ⟨(u, t), ⟨hm, (substrB_eq_true_iff _ _).mpr hsub⟩, rfl⟩

end WebCrawler

namespace WebCrawler

theorem crawlLinks_keysSub (env : Env) (fuel : Nat) (scope : String)
    (hcrawl : ∀ url base c, KeysSub c → KeysSub (crawl env fuel url base c)) :
    ∀ links c, KeysSub c → KeysSub (crawlLinks env fuel scope links c) := by
  intro links
  induction links with
  | nil => intro c h; simpa [crawlLinks_nil] using h
  | cons href rest ih =>
    intro c h
    rw [crawlLinks_cons]
    apply ih
    by_cases he : href = ""
    · simpa [he] using h
    · rw [if_neg he]
      by_cases hs : startswith (env.urljoin scope href) scope
      · rw [if_pos hs]
        exact hcrawl _ _ _ h
      · simpa [hs] using h

theorem crawl_keysSub (env : Env) :
    ∀ fuel url base c, KeysSub c → KeysSub (crawl env fuel url base c) := by
  intro fuel
  induction fuel with
  | zero => intro url base c h; simpa [crawl_zero] using h
  | succ fuel ih =>
    intro url base c h
    rw [crawl_succ]
    by_cases hv : url ∈ c.visited
    · simpa [hv] using h
    · rw [if_neg hv]
      cases hf : env.fetch url with
      | ok page =>
        apply crawlLinks_keysSub env fuel _ ih
        have hfresh : ∀ p ∈ c.index, p.1 ≠ url := by
          rintro ⟨a, b⟩ hp rfl
          exact hv (h a b hp)
        intro u t hm
        rw [dictInsert_of_fresh c.index url page.text hfresh] at hm
        rcases List.mem_append.mp hm with hm | hm
        · exact List.mem_cons_of_mem _ (h u t hm)
        · rw [List.mem_singleton] at hm
          cases hm
          exact List.mem_cons_self _ _
      | error e =>
        intro u t hm
        exact List.mem_cons_of_mem _ (h u t hm)

/-- Claim C1: in any crawl session over any link graph (cyclic or
diamond-shaped alike), no URL is passed to the fetch adapter more than
once: the trace of fetch invocations has no duplicates. -/
theorem claim_c1_dedup (env : Env) (fuel : Nat) (url : String)
    (base : Option String) :
    ((crawl env fuel url base WebCrawler.empty).fetchLog).Nodup :=
  (crawl_inv env fuel url base WebCrawler.empty (inv_empty env)).1

/-- Claim C6: when `url` is already in the visited set, `crawl` returns
at once with the whole state — visited set, index, fetch trace and
reporting output — exactly as it was. -/
theorem claim_c6_visited_noop (env : Env) (fuel : Nat) (url : String)
    (base : Option String) (c : WebCrawler) (h : url ∈ c.visited) :
    crawl env fuel url base c = c := by
  cases fuel with
  | zero => rfl
  | succ fuel => rw [crawl_succ, if_pos h]

theorem claim_c6_witness :
    "u" ∈ (⟨[], ["u"], [], []⟩ : WebCrawler).visited ∧
      crawl cycEnv 3 "u" none ⟨[], ["u"], [], []⟩ = ⟨[], ["u"], [], []⟩ :=
  ⟨by decide, claim_c6_visited_noop cycEnv 3 "u" none ⟨[], ["u"], [], []⟩ (by decide)⟩

/-- Claim C5: when the fetch of an unvisited `url` fails with message
`e`, `crawl` catches the error, appends exactly the one line
`Error crawling <url>: <e>` to the reporting sink, adds nothing to the
index, returns normally, and — second conjunct — the link loop of the
parent page goes on to process the remaining sibling links from exactly
that updated state. -/
theorem claim_c5_fetch_failure (env : Env) (fuel : Nat) (url e : String)
    (hf : env.fetch url = Except.error e) :
    (∀ base c, url ∉ c.visited →
      crawl env (fuel + 1) url base c =
        { c with visited := url :: c.visited,
                 fetchLog := c.fetchLog ++ [url],
                 output := c.output ++ ["Error crawling " ++ url ++ ": " ++ e] }) ∧
    (∀ scope href rest c, href ≠ "" → env.urljoin scope href = url →
      startswith url scope = true → url ∉ c.visited →
      crawlLinks env (fuel + 1) scope (href :: rest) c =
        crawlLinks env (fuel + 1) scope rest
          { c with visited := url :: c.visited,
                   fetchLog := c.fetchLog ++ [url],
                   output := c.output ++ ["Error crawling " ++ url ++ ": " ++ e] }) := by
  have hbase : ∀ base c, url ∉ c.visited →
      crawl env (fuel + 1) url base c =
        { c with visited := url :: c.visited,
                 fetchLog := c.fetchLog ++ [url],
                 output := c.output ++ ["Error crawling " ++ url ++ ": " ++ e] } := by
    intro base c hv
    rw [crawl_succ, if_neg hv, hf]
  refine ⟨hbase, ?_⟩
  intro scope href rest c he hres hs hv
  rw [crawlLinks_cons, if_neg he, hres, if_pos hs, hbase (some scope) c hv]

theorem claim_c5_witness :
    cycEnv.fetch "https://s.org/zzz" = Except.error "no route" ∧
      crawl cycEnv 4 "https://s.org/zzz" none WebCrawler.empty =
        { WebCrawler.empty with
            visited := ["https://s.org/zzz"],
            fetchLog := ["https://s.org/zzz"],
            output := ["Error crawling https://s.org/zzz: no route"] } :=
  ⟨rfl,
    (claim_c5_fetch_failure cycEnv 3 "https://s.org/zzz" "no route" rfl).1
      none WebCrawler.empty (by decide)⟩

/-- Claim C2: a non-empty extracted link is recursively crawled iff its
resolution against the scope string has the scope string as a literal
string prefix, and a link failing the test changes nothing at all; the
test is a plain prefix comparison, so the cross-domain URL
`https://example.com.evil.com` passes containment against the scope
`https://example.com` and really gets fetched. -/
theorem claim_c2_scope_test :
    (∀ (env : Env) (fuel : Nat) (scope href : String) (c : WebCrawler),
      href ≠ "" →
      (startswith (env.urljoin scope href) scope = true →
        crawlLinks env fuel scope [href] c =
          crawl env fuel (env.urljoin scope href) (some scope) c) ∧
      (startswith (env.urljoin scope href) scope = false →
        crawlLinks env fuel scope [href] c = c)) ∧
    startswith "https://example.com.evil.com" "https://example.com" = true ∧
    "https://example.com.evil.com" ∈
      (crawl evilEnv 2 "https://example.com" none WebCrawler.empty).fetchLog := by
  refine ⟨?_, by decide, by decide⟩
  intro env fuel scope href c he
  constructor
  · intro hs
    rw [crawlLinks_cons, if_neg he, if_pos hs, crawlLinks_nil]
  · intro hs
    rw [crawlLinks_cons, if_neg he, if_neg (by simp [hs]), crawlLinks_nil]

theorem claim_c2_witness :
    crawlLinks evilEnv 3 "https://a" ["x"] WebCrawler.empty = WebCrawler.empty :=
  (claim_c2_scope_test.1 evilEnv 3 "https://a" "x" WebCrawler.empty (by decide)).2
    (by decide)

end WebCrawler

namespace WebCrawler

/-- Claim C3: `search k` returns exactly the indexed URLs whose stored
text contains `k` as a case-insensitive substring; the empty keyword
returns every indexed URL, and search over an empty index returns the
empty result whatever the keyword. -/
theorem claim_c3_search_correct :
    (∀ (c : WebCrawler) (k u : String),
      u ∈ search c k ↔
        ∃ t, (u, t) ∈ c.index ∧ (pyLower k).data <:+: (pyLower t).data) ∧
    (∀ c : WebCrawler, search c "" = c.index.map Prod.fst) ∧
    (∀ (c : WebCrawler) (k : String), c.index = [] → search c k = []) := by
  refine ⟨mem_search, ?_, ?_⟩
  · intro c
    rw [search_eq]
    have hall : ∀ p ∈ c.index, pyIn (pyLower "") (pyLower p.2) = true := by
      intro p _
      have hdata : (pyLower "").data = [] := by decide
      show substrB (pyLower "").data (pyLower p.2).data = true
      rw [hdata]
      exact substrB_nil_left _
    rw [List.filter_eq_self.mpr hall]
  · intro c k h
    rw [search_eq, h]
    rfl

theorem claim_c3_witness :
    WebCrawler.empty.index = [] ∧ search WebCrawler.empty "zz" = [] :=
  ⟨rfl, claim_c3_search_correct.2.2 WebCrawler.empty "zz" rfl⟩

/-- Claim C4: in any session from a fresh engine, every attempted URL
whose fetch succeeded is in the index with its extracted text, every
attempted URL whose fetch failed is absent from the index but present in
the visited set, and a URL is in the index only with the text of a
successful fetch. -/
theorem claim_c4_index_completeness (env : Env) (fuel : Nat) (url : String)
    (base : Option String) :
    (∀ u p, u ∈ (crawl env fuel url base WebCrawler.empty).fetchLog →
      env.fetch u = Except.ok p →
      (u, p.text) ∈ (crawl env fuel url base WebCrawler.empty).index) ∧
    (∀ u e, u ∈ (crawl env fuel url base WebCrawler.empty).fetchLog →
      env.fetch u = Except.error e →
      (∀ t, (u, t) ∉ (crawl env fuel url base WebCrawler.empty).index) ∧
        u ∈ (crawl env fuel url base WebCrawler.empty).visited) ∧
    (∀ u t, (u, t) ∈ (crawl env fuel url base WebCrawler.empty).index →
      ∃ p, env.fetch u = Except.ok p ∧ t = p.text) := by
  have I := crawl_inv env fuel url base WebCrawler.empty (inv_empty env)
  refine ⟨?_, ?_, ?_⟩
  · intro u p hlog hfu
    exact (I.2.2.1 u p.text).mpr ⟨p, hfu, rfl, hlog⟩
  · intro u e hlog hfe
    refine ⟨?_, (I.2.1 u).mpr hlog⟩
    intro t hm
    obtain ⟨p, hp, _, _⟩ := (I.2.2.1 u t).mp hm
    rw [hfe] at hp
    cases hp
  · intro u t hm
    obtain ⟨p, hp, ht, _⟩ := (I.2.2.1 u t).mp hm
    exact ⟨p, hp, ht⟩

theorem claim_c4_witness :
    ("https://s.org/a", "page a") ∈
      (crawl cycEnv 5 "https://s.org/a" none WebCrawler.empty).index :=
  (claim_c4_index_completeness cycEnv 5 "https://s.org/a" none).1
    "https://s.org/a" ⟨"page a", ["https://s.org/a/b"]⟩ (by decide) rfl

/-- Claim C8: `search` is side-effect-free — as a method call it leaves
the object state untouched — and two `search` calls with the same
keyword against the same index return the same result. -/
theorem claim_c8_search_pure :
    (∀ (c : WebCrawler) (k : String), (searchOp c k).1 = c) ∧
    (∀ (c₁ c₂ : WebCrawler) (k : String), c₁.index = c₂.index →
      (searchOp c₁ k).2 = (searchOp c₂ k).2) := by
  refine ⟨fun c k => rfl, ?_⟩
  intro c₁ c₂ k h
  show search c₁ k = search c₂ k
  unfold search
  rw [h]

theorem claim_c8_witness :
    (searchOp ⟨[("a", "Hello")], [], [], []⟩ "hello").2 =
      (searchOp ⟨[("a", "Hello")], ["a"], ["a"], ["log"]⟩ "hello").2 :=
  claim_c8_search_pure.2 ⟨[("a", "Hello")], [], [], []⟩
    ⟨[("a", "Hello")], ["a"], ["a"], ["log"]⟩ "hello" rfl

/-- Claim C9: the index keys are always a subset of the visited set: it
holds for the fresh engine, it is preserved by every `crawl` call from
any state that satisfies it, and `search` (as a method call) does not
change the state at all. -/
theorem claim_c9_keys_visited :
    (∀ u t, (u, t) ∈ WebCrawler.empty.index → u ∈ WebCrawler.empty.visited) ∧
    (∀ (env : Env) (fuel : Nat) (url : String) (base : Option String)
      (c : WebCrawler), KeysSub c → KeysSub (crawl env fuel url base c)) ∧
    (∀ (c : WebCrawler) (k : String), (searchOp c k).1 = c) := by
  refine ⟨?_, ?_, fun c k => rfl⟩
  · intro u t h
    simp [WebCrawler.empty] at h
  · intro env fuel url base c h
    exact crawl_keysSub env fuel url base c h

theorem claim_c9_witness :
    KeysSub (crawl cycEnv 2 "https://s.org/a" none WebCrawler.empty) :=
  claim_c9_keys_visited.2.1 cycEnv 2 "https://s.org/a" none WebCrawler.empty
    (fun u t h => absurd h (by simp [WebCrawler.empty]))

/-- Claim C10: the result of `search` is a sublist of the index keys in
index (insertion) order, each element is a key of the index, it has no
duplicates whenever the index keys are duplicate-free, and the index
built by any crawl session from a fresh engine does have duplicate-free
keys. -/
theorem claim_c10_search_keys_order :
    (∀ (c : WebCrawler) (k : String),
      (search c k).Sublist (c.index.map Prod.fst)) ∧
    (∀ (c : WebCrawler) (k u : String), u ∈ search c k → ∃ t, (u, t) ∈ c.index) ∧
    (∀ (c : WebCrawler) (k : String), (c.index.map Prod.fst).Nodup →
      (search c k).Nodup) ∧
    (∀ (env : Env) (fuel : Nat) (url : String) (base : Option String),
      (((crawl env fuel url base WebCrawler.empty).index).map Prod.fst).Nodup) := by
  have hsub : ∀ (c : WebCrawler) (k : String),
      (search c k).Sublist (c.index.map Prod.fst) := by
    intro c k
    rw [search_eq]
    exact (List.filter_sublist _).map Prod.fst
  refine ⟨hsub, ?_, ?_, ?_⟩
  · intro c k u hu
    obtain ⟨t, ht, _⟩ := (mem_search c k u).mp hu
    exact ⟨t, ht⟩
  · intro c k h
    exact (hsub c k).nodup h
  · intro env fuel url base
    exact (crawl_inv env fuel url base WebCrawler.empty (inv_empty env)).2.2.2

theorem claim_c10_witness :
    (search ⟨[("a", "xy"), ("b", "zz")], [], [], []⟩ "x").Nodup :=
  claim_c10_search_keys_order.2.2.1 ⟨[("a", "xy"), ("b", "zz")], [], [], []⟩ "x"
    (by decide)

end WebCrawler

theorem filter_length_mono {α : Type} (p q : α → Bool)
    (h : ∀ a, p a = true → q a = true) :
    ∀ l : List α, (l.filter p).length ≤ (l.filter q).length := by
  intro l
  induction l with
  | nil => simp
  | cons a t ih =>
    simp only [List.filter_cons]
    by_cases hp : p a = true
    · rw [if_pos hp, if_pos (h a hp)]
      simpa using ih
    · rw [if_neg hp]
      by_cases hq : q a = true
      · rw [if_pos hq]
        exact Nat.le_succ_of_le ih
      · rw [if_neg hq]
        exact ih

theorem unvisitedCount_mono (U : List String) (c c' : WebCrawler)
    (h : ∀ x ∈ c.visited, x ∈ c'.visited) :
    unvisitedCount U c' ≤ unvisitedCount U c := by
  apply filter_length_mono
  intro a ha
  simp only [decide_eq_true_eq] at ha ⊢
  exact fun hmem => ha (h a hmem)

theorem unvisitedCount_lt (U : List String) (c c' : WebCrawler) (url : String)
    (hvis : c'.visited = url :: c.visited) (hU : url ∈ U)
    (hv : url ∉ c.visited) :
    unvisitedCount U c' < unvisitedCount U c := by
  unfold unvisitedCount
  rw [hvis]
  induction U with
  | nil => cases hU
  | cons a rest ih =>
    simp only [List.filter_cons]
    rcases List.mem_cons.mp hU with rfl | hUrest
    · rw [if_neg (by simp), if_pos (by simpa using hv)]
      apply Nat.lt_succ_of_le
      apply filter_length_mono
      intro x hx
      simp only [decide_eq_true_eq, List.mem_cons] at hx ⊢
      exact fun hxv => hx (Or.inr hxv)
    · by_cases hav : a ∈ url :: c.visited
      · rw [if_neg (by simp only [decide_eq_true_eq]; exact not_not_intro hav)]
        by_cases hav2 : a ∈ c.visited
        · rw [if_neg (by simp only [decide_eq_true_eq]; exact not_not_intro hav2)]
          exact ih hUrest
        · rw [if_pos (by simpa using hav2)]
          exact Nat.lt_succ_of_lt (ih hUrest)
      · have hav2 : a ∉ c.visited := fun hx => hav (List.mem_cons_of_mem _ hx)
        rw [if_pos (by simpa using hav), if_pos (by simpa using hav2)]
        simpa using ih hUrest

theorem unvisitedCount_pos (U : List String) (c : WebCrawler) (url : String)
    (hU : url ∈ U) (hv : url ∉ c.visited) : 0 < unvisitedCount U c := by
  unfold unvisitedCount
  apply List.length_pos_of_mem (a := url)
  rw [List.mem_filter]
  exact ⟨hU, by simpa using hv⟩

namespace WebCrawler

theorem crawlLinks_fuel_stable (env : Env) (U : List String) (scope : String)
    (k : Nat)
    (hstable : ∀ url c f₁ f₂, url ∈ U → unvisitedCount U c ≤ k → k < f₁ →
      k < f₂ → crawl env f₁ url (some scope) c = crawl env f₂ url (some scope) c) :
    ∀ links, (∀ h ∈ links, h ≠ "" →
        startswith (env.urljoin scope h) scope = true → env.urljoin scope h ∈ U) →
      ∀ c a b, unvisitedCount U c ≤ k → k < a → k < b →
        crawlLinks env a scope links c = crawlLinks env b scope links c := by
  intro links
  induction links with
  | nil =>
    intro _ c a b _ _ _
    rw [crawlLinks_nil, crawlLinks_nil]
  | cons href rest ih =>
    intro hlinks c a b hcount ha hb
    rw [crawlLinks_cons, crawlLinks_cons]
    by_cases he : href = ""
    · rw [if_pos he, if_pos he]
      exact ih (fun h hm => hlinks h (List.mem_cons_of_mem _ hm)) c a b hcount ha hb
    · rw [if_neg he, if_neg he]
      by_cases hs : startswith (env.urljoin scope href) scope = true
      · rw [if_pos hs, if_pos hs]
        have hrU : env.urljoin scope href ∈ U :=
          hlinks href (List.mem_cons_self _ _) he hs
        have heq : crawl env a (env.urljoin scope href) (some scope) c =
            crawl env b (env.urljoin scope href) (some scope) c :=
          hstable _ c a b hrU hcount ha hb
        rw [heq]
        apply ih (fun h hm => hlinks h (List.mem_cons_of_mem _ hm)) _ a b ?_ ha hb
        exact le_trans
          (unvisitedCount_mono U c _
            (fun x hx => crawl_visited_mono env b _ _ c x hx)) hcount
      · rw [if_neg hs, if_neg hs]
        exact ih (fun h hm => hlinks h (List.mem_cons_of_mem _ hm)) c a b hcount ha hb

theorem crawl_fuel_stable (env : Env) (U : List String) (scope : String)
    (hscope : scope ≠ "")
    (hclosed : ∀ u ∈ U, ∀ h ∈ linksOf env u, h ≠ "" →
      startswith (env.urljoin scope h) scope = true → env.urljoin scope h ∈ U) :
    ∀ k url c f₁ f₂, url ∈ U → unvisitedCount U c ≤ k → k < f₁ → k < f₂ →
      crawl env f₁ url (some scope) c = crawl env f₂ url (some scope) c := by
  intro k
  induction k using Nat.strong_induction_on with
  | _ k IH =>
    intro url c f₁ f₂ hU hcount hf₁ hf₂
    obtain ⟨a, rfl⟩ : ∃ a, f₁ = a + 1 := ⟨f₁ - 1, by omega⟩
    obtain ⟨b, rfl⟩ : ∃ b, f₂ = b + 1 := ⟨f₂ - 1, by omega⟩
    rw [crawl_succ, crawl_succ]
    by_cases hv : url ∈ c.visited
    · rw [if_pos hv, if_pos hv]
    · rw [if_neg hv, if_neg hv]
      have hpos : 0 < unvisitedCount U c := unvisitedCount_pos U c url hU hv
      have hk : 1 ≤ k := le_trans hpos hcount
      cases hf : env.fetch url with
      | error e => rfl
      | ok page =>
        have hpy : pyOr (some scope) url = scope := by
          simp [pyOr, hscope]
        rw [hpy]
        have hlinks : ∀ h ∈ page.links, h ≠ "" →
            startswith (env.urljoin scope h) scope = true →
            env.urljoin scope h ∈ U := by
          have := hclosed url hU
          rw [linksOf, hf] at this
          exact this
        apply crawlLinks_fuel_stable env U scope (k - 1)
          (fun url' c' g₁ g₂ h1 h2 h3 h4 =>
            IH (k - 1) (by omega) url' c' g₁ g₂ h1 h2 h3 h4)
          page.links hlinks _ a b ?_ (by omega) (by omega)
        have hlt : unvisitedCount U
            { c with visited := url :: c.visited,
                     fetchLog := c.fetchLog ++ [url],
                     index := dictInsert c.index url page.text } <
            unvisitedCount U c :=
          unvisitedCount_lt U c _ url rfl hU hv
        omega

theorem crawl_none_eq_some_self (env : Env) (f : Nat) (url : String)
    (c : WebCrawler) :
    crawl env f url none c = crawl env f url (some url) c := by
  cases f with
  | zero => rfl
  | succ f =>
    rw [crawl_succ, crawl_succ]
    have h1 : pyOr none url = url := rfl
    have h2 : pyOr (some url) url = url := by
      simp [pyOr]
    rw [h1, h2]

/-- Claim C7: a crawl session terminates because the visited set grows
inside the finite universe `U` of in-scope reachable URLs: as soon as the
fuel exceeds the size of `U`, giving the embedded recursion any more fuel
changes nothing — the recursion has already reached its fixpoint — and in
the same run no URL is fetched twice. -/
theorem claim_c7_termination (env : Env) (U : List String) (seed : String)
    (hseed : seed ∈ U) (hne : seed ≠ "")
    (hclosed : ∀ u ∈ U, ∀ h ∈ linksOf env u, h ≠ "" →
      startswith (env.urljoin seed h) seed = true → env.urljoin seed h ∈ U) :
    ∀ f₁ f₂, U.length < f₁ → U.length < f₂ →
      crawl env f₁ seed none WebCrawler.empty =
        crawl env f₂ seed none WebCrawler.empty ∧
      ((crawl env f₁ seed none WebCrawler.empty).fetchLog).Nodup := by
  intro f₁ f₂ h₁ h₂
  constructor
  · rw [crawl_none_eq_some_self, crawl_none_eq_some_self]
    apply crawl_fuel_stable env U seed hne hclosed U.length seed
      WebCrawler.empty f₁ f₂ hseed ?_ h₁ h₂
    unfold unvisitedCount
    exact List.length_filter_le _ _
  · exact (crawl_inv env f₁ seed none WebCrawler.empty (inv_empty env)).1

theorem claim_c7_witness :
    crawl cycEnv 3 "https://s.org/a" none WebCrawler.empty =
      crawl cycEnv 10 "https://s.org/a" none WebCrawler.empty ∧
    ((crawl cycEnv 3 "https://s.org/a" none WebCrawler.empty).fetchLog).Nodup :=
  claim_c7_termination cycEnv ["https://s.org/a", "https://s.org/a/b"]
    "https://s.org/a" (by decide) (by decide) (by decide) 3 10 (by decide)
    (by decide)

end WebCrawler
